import Mathlib

/-!
Verification of the disGo dispatcher (`src/main.go`).

The program fans a list of commands out across a pool of hosts.  For each
command, `dispatch` walks a random permutation of the host indices
(`rand.Perm(len(hosts))`), creates an attempt artifact
`cmd_<id>-attempt<seq>.log` per try (panicking if creation fails), invokes the
remote executor, and on success atomically renames the attempt artifact to
`cmd_<id>-final.log` (logging but not failing when the rename errors), finally
sending exactly one boolean on the completion channel.  `main` launches one
`dispatch` per command, receives exactly `len(commands)` booleans, and prints
a summary line.

The embedding below is shallow: the external environment (remote execution
outcome per host, captured output, filesystem fault injection for create and
rename) is an explicit `Env`; the per-command goroutine state is a `DState`
threaded through `dispatchLoop`, which mirrors the Go loop body statement by
statement.  Artifact names are modelled structurally (`ArtifactName`) with a
`render` function giving the exact `fmt.Sprintf` strings; the two formats
`cmd_<id>-attempt<seq>.log` and `cmd_<id>-final.log` are injective in
`(id, seq)` resp. `id`, which the structural representation makes explicit.
-/

/-- Artifact names, structurally.  `render` gives the on-disk string exactly as
`fmt.Sprintf("cmd_%v-attempt%v.log", id, attempts)` and
`fmt.Sprintf("cmd_%v-final.log", id)` produce it. -/
inductive ArtifactName
  | attempt (id seq : Nat)
  | final (id : Nat)
deriving DecidableEq, Repr

/-- The exact path strings produced by the two `fmt.Sprintf` calls in
`dispatch`. -/
def ArtifactName.render : ArtifactName → String
  | ArtifactName.attempt id seq => s!"cmd_{id}-attempt{seq}.log"
  | ArtifactName.final id => s!"cmd_{id}-final.log"

/-- Does this artifact name belong to command `id`'s attempt series? -/
def ArtifactName.isAttemptOf : ArtifactName → Nat → Bool
  | ArtifactName.attempt i _, id => i == id
  | ArtifactName.final _, _ => false

/-- External environment of one `dispatch` goroutine: the remote executor's
outcome and captured combined output per host index (`tryCommand` streams
stdout+stderr into the attempt file whether or not the run succeeds), the
error detail rendered on failure, and filesystem fault injection for
`os.Create` and `os.Rename`. -/
structure Env where
  execOk : Nat → Bool
  outputOf : Nat → String
  errDetail : Nat → String
  createOk : ArtifactName → Bool
  renameOk : Bool

/-- The filesystem namespace for artifacts: an association list from artifact
name to current content. -/
def FS : Type := List (ArtifactName × String)

/-- Remove every entry named `n`. -/
def fsErase (fs : List (ArtifactName × String)) (n : ArtifactName) :
    List (ArtifactName × String) :=
  fs.filter (fun e => !(e.1 == n))

/-- `os.Create` / a full write: (re)create the file named `n` with content
`c`, truncating any previous file of that name. -/
def fsSet (fs : List (ArtifactName × String)) (n : ArtifactName) (c : String) :
    List (ArtifactName × String) :=
  fsErase fs n ++ [(n, c)]

/-- Content of the file named `n`, if present. -/
def fsGet (fs : List (ArtifactName × String)) (n : ArtifactName) : Option String :=
  (fs.find? (fun e => e.1 == n)).map (fun e => e.2)

/-- `os.Rename src dst`: move the content of `src` to `dst`, replacing any
existing `dst`. -/
def fsRename (fs : List (ArtifactName × String)) (src dst : ArtifactName) :
    List (ArtifactName × String) :=
  match fsGet fs src with
  | none => fs
  | some c => fsSet (fsErase fs src) dst c

/-- Number of files named `n`. -/
def countName (fs : List (ArtifactName × String)) (n : ArtifactName) : Nat :=
  (fs.filter (fun e => e.1 == n)).length

/-- Number of attempt artifacts of command `id`. -/
def attemptCount (fs : List (ArtifactName × String)) (id : Nat) : Nat :=
  (fs.filter (fun e => e.1.isAttemptOf id)).length

/-- Diagnostic lines, as formatted by the `debug` calls in `dispatch`. -/
def execMsg (id : Nat) (host : String) : String :=
  s!"EXEC command id={id} host={host}"

def errMsg (id : Nat) (detail : String) : String :=
  s!"ERROR id={id} status={detail}"

def renameErrMsg (id : Nat) (finalP attemptP : String) : String :=
  s!"ERROR (id={id}): could not write output path {finalP}, final output in {attemptP}"

def succMsg (id : Nat) (attemptP : String) : String :=
  s!"SUCC id={id} output={attemptP}"

def failMsg (id : Nat) : String :=
  s!"FAILED id={id} exhausted all servers and could not complete"

/-- Observable state of one `dispatch` goroutine: the artifact filesystem it
has written, the booleans sent on `doneChan`, the diagnostic lines, the
attempt sequence numbers consumed (in allocation order), the host indices the
remote executor was invoked on (in order), the `os.Rename` calls issued, and
whether the goroutine panicked (artifact creation failure). -/
structure DState where
  fs : List (ArtifactName × String) := []
  sent : List Bool := []
  diags : List String := []
  attemptSeqs : List Nat := []
  hostsTried : List Nat := []
  renameCalls : List (ArtifactName × ArtifactName) := []
  panicked : Bool := false
deriving DecidableEq, Repr

/-- Go's `rand.Perm(n)` (inside-out Fisher–Yates):
`for i in 0..n-1 { j := Intn(i+1); m[i] = m[j]; m[j] = i }`.
`rnd i` abstracts the `i`-th draw of the generator; `% (i+1)` models
`Intn(i+1)`'s range.  The state after step `i` is the filled prefix of length
`i+1`. -/
def randPermAux (rnd : Nat → Nat) : Nat → List Nat
  | 0 => []
  | n + 1 =>
    let m := randPermAux rnd n
    let j := rnd n % (n + 1)
    if j = n then m ++ [n] else (m.set j n) ++ [m.getD j 0]

/-- `rand.Perm(len(hosts))` as called at the top of `dispatch`. -/
def randPerm (rnd : Nat → Nat) (n : Nat) : List Nat :=
  randPermAux rnd n

/-- The body of `dispatch`'s `for _, i := range order` loop, one constructor
case per control path of the Go code:

* `order = []`: loop exhausted — `debug("FAILED ...")`, `doneChan <- false`.
* `os.Create` fails: `panic(err)` — the goroutine stops, nothing is sent.
* `tryCommand` fails: `debug("ERROR ...")`, `continue` with `attempts+1`.
* `tryCommand` succeeds: `os.Rename` the attempt file to the final name
  (on rename error only `debug` is emitted), then `debug("SUCC ...")`,
  `doneChan <- true`, `return`.

The attempt path is computed (consuming the sequence number) before the
create, exactly as in the source. -/
def dispatchLoop (id : Nat) (env : Env) (hosts : List String) :
    List Nat → Nat → DState → DState
  | [], _, st =>
    { st with diags := st.diags ++ [failMsg id], sent := st.sent ++ [false] }
  | i :: rest, attempts, st =>
    let host := hosts.getD i ""
    let aName := ArtifactName.attempt id attempts
    if env.createOk aName then
      let st1 : DState :=
        { st with fs := fsSet st.fs aName "",
                  attemptSeqs := st.attemptSeqs ++ [attempts] }
      let st2 : DState :=
        { st1 with diags := st1.diags ++ [execMsg id host],
                   hostsTried := st1.hostsTried ++ [i],
                   fs := fsSet st1.fs aName (env.outputOf i) }
      if env.execOk i then
        let fName := ArtifactName.final id
        let st3 : DState :=
          { st2 with renameCalls := st2.renameCalls ++ [(aName, fName)] }
        let st4 : DState :=
          if env.renameOk then { st3 with fs := fsRename st3.fs aName fName }
          else { st3 with diags := st3.diags ++ [renameErrMsg id fName.render aName.render] }
        { st4 with diags := st4.diags ++ [succMsg id aName.render],
                   sent := st4.sent ++ [true] }
      else
        dispatchLoop id env hosts rest (attempts + 1)
          { st2 with diags := st2.diags ++ [errMsg id (env.errDetail i)] }
    else
      { st with attemptSeqs := st.attemptSeqs ++ [attempts], panicked := true }

/-- `dispatch(id, command, hosts, doneChan)`: compute the random host order,
then run the retry loop starting from `attempts = 0` and a clean state. -/
def dispatch (id : Nat) (command : String) (hosts : List String) (env : Env)
    (rnd : Nat → Nat) : DState :=
  let order := randPerm rnd hosts.length
  dispatchLoop id env hosts order 0 {}

/-- The first host index in the order on which the remote executor succeeds,
if any: the attempt `dispatch` stops at. -/
def firstSucc (env : Env) (order : List Nat) : Option Nat :=
  order.find? (fun i => env.execOk i)

/-- `main`'s collection loop:
`for left := 0; left < numCommands; left++ { if <-doneChan { numSuccessful++ } }`.
`chan` is the sequence of booleans the channel delivers; `none` models the
loop blocking forever because fewer messages than commands ever arrive. -/
def collectLoop : Nat → Nat → List Bool → Option Nat
  | 0, acc, _ => some acc
  | _ + 1, _, [] => none
  | n + 1, acc, b :: rest => collectLoop n (if b then acc + 1 else acc) rest

/-- The run summary printed by `main`'s final `debug` line. -/
structure Summary where
  succeeded : Nat
  failed : Nat
  total : Nat
deriving DecidableEq, Repr

/-- `debug("FINISHED=%v FAILED=%v TOTAL=%v", numSuccessful, numCommands-numSuccessful, numCommands)`. -/
def finalLine (s : Summary) : String :=
  s!"FINISHED={s.succeeded} FAILED={s.failed} TOTAL={s.total}"

/-- The tail of `main`: receive exactly `numCommands` booleans, then build the
summary with `failed := numCommands - numSuccessful`. -/
def mainCollect (numCommands : Nat) (chan : List Bool) : Option Summary :=
  (collectLoop numCommands 0 chan).map
    (fun k => { succeeded := k, failed := numCommands - k, total := numCommands })

/-- The world `main` runs in: the raw `os.Args` (index 0 is the program name),
the flag values after `flag.Parse` (`-cmds`, `-hosts`), the contents
`readLines` would return for each file (`none` models an open error, which
`main` turns into a panic), the per-command environment and random stream,
and the order in which the completion channel delivers the booleans. -/
structure World where
  osArgs : List String
  cmdsPath : String
  hostsPath : String
  cmdsFile : Option (List String)
  hostsFile : Option (List String)
  envOf : Nat → Env
  rndOf : Nat → Nat → Nat
  arrival : List Bool

/-- Observable outcome of one run of `main`. -/
structure MainOutcome where
  usagePrinted : Bool := false
  filesRead : List String := []
  launched : Nat := 0
  results : List DState := []
  summaryLine : Option String := none
  panicked : Bool := false
deriving Repr

/-- `main`: after `flag.Parse` and `rand.Seed`, if `len(os.Args) > 1 &&
os.Args[1] == "help"` print usage and return; otherwise read the commands
file then the hosts file (panicking on error), launch one `dispatch`
goroutine per command, and collect the summary.  A panic in any goroutine
(artifact-creation failure) crashes the whole process before the summary line
is printed. -/
def mainProg (w : World) : MainOutcome :=
  if 1 < w.osArgs.length ∧ w.osArgs.getD 1 "" = "help" then
    { usagePrinted := true }
  else
    match w.cmdsFile with
    | none => { filesRead := [w.cmdsPath], panicked := true }
    | some commands =>
      match w.hostsFile with
      | none => { filesRead := [w.cmdsPath, w.hostsPath], panicked := true }
      | some hosts =>
        let results := (List.range commands.length).map
          (fun i => dispatch i (commands.getD i "") hosts (w.envOf i) (w.rndOf i))
        if results.any (fun r => r.panicked) then
          { filesRead := [w.cmdsPath, w.hostsPath], launched := commands.length,
            results := results, panicked := true }
        else
          { filesRead := [w.cmdsPath, w.hostsPath], launched := commands.length,
            results := results,
            summaryLine := (mainCollect commands.length w.arrival).map finalLine }

/-- Modelled from the Go standard `flag` package contract (an external
collaborator per the spec): `flag.Parse` consumes `os.Args[1:]` up to the
first token that is neither `--` nor of the form `-name` / `-name=value`; the
remaining tokens are the positional arguments.  (Flags taking their value as
a separate token are not needed here; the inputs we evaluate use only the
`-name=value` form.) -/
def flagTail : List String → List String
  | [] => []
  | a :: rest =>
    if a = "--" then rest
    else
      match a.data with
      | '-' :: _ :: _ => flagTail rest
      | _ => a :: rest

/-- The first positional command-line argument, `flag.Arg(0)`. -/
def firstPositional (osArgs : List String) : Option String :=
  (flagTail (osArgs.drop 1)).head?

/-- Attempt sequence numbers consumed by a run that makes `k` attempts
starting from counter value `a`: `a, a+1, ..., a+k-1`. -/
def seqFrom (a : Nat) : Nat → List Nat
  | 0 => []
  | k + 1 => a :: seqFrom (a + 1) k

/-- The artifact files written by a run of the loop in which every host
fails: one attempt file per order entry, numbered consecutively from `a`,
containing that host's captured output. -/
def failFiles (env : Env) (id : Nat) : List Nat → Nat → List (ArtifactName × String)
  | [], _ => []
  | i :: rest, a => (ArtifactName.attempt id a, env.outputOf i) :: failFiles env id rest (a + 1)

/-- The filesystem after a run of the loop in which every host fails, as the
loop computes it: successive `fsSet`s over the starting filesystem. -/
def addFails (env : Env) (id : Nat) : List Nat → Nat → List (ArtifactName × String) →
    List (ArtifactName × String)
  | [], _, fs => fs
  | i :: rest, a, fs =>
    addFails env id rest (a + 1) (fsSet fs (ArtifactName.attempt id a) (env.outputOf i))

/-! Concrete environments and worlds used to evaluate the theorems. -/

/-- Every host succeeds; the filesystem is healthy. -/
def envAllOk : Env :=
  ⟨fun _ => true, fun i => s!"out{i}", fun i => s!"err{i}", fun _ => true, true⟩

/-- Every host fails; the filesystem is healthy. -/
def envNoExec : Env :=
  ⟨fun _ => false, fun i => s!"out{i}", fun i => s!"err{i}", fun _ => true, true⟩

/-- Every host succeeds, but `os.Rename` fails. -/
def envNoRename : Env :=
  ⟨fun _ => true, fun i => s!"out{i}", fun i => s!"err{i}", fun _ => true, false⟩

/-- `os.Create` fails on every path. -/
def envNoCreate : Env :=
  ⟨fun _ => true, fun i => s!"out{i}", fun i => s!"err{i}", fun _ => false, true⟩

/-- A degenerate random stream: every draw returns 0. -/
def rzero : Nat → Nat := fun _ => 0

/-- Invocation `disgo help` with well-formed input files. -/
def worldHelp : World :=
  ⟨["disgo", "help"], "cmds.txt", "hosts.txt", some ["c1"], some ["h1"],
    fun _ => envAllOk, fun _ _ => 0, [true]⟩

/-- Invocation `disgo -cmds=x.txt help`: the first positional argument is
`help`, but `os.Args[1]` is the flag token. -/
def worldFlagHelp : World :=
  ⟨["disgo", "-cmds=x.txt", "help"], "x.txt", "hosts.txt", some ["c1"], some ["h1"],
    fun _ => envAllOk, fun _ _ => 0, [true]⟩

/-- Invocation `disgo` where artifact creation fails for the only command. -/
def worldBadCreate : World :=
  ⟨["disgo"], "cmds.txt", "hosts.txt", some ["c1"], some ["h1"],
    fun _ => envNoCreate, fun _ _ => 0, []⟩

/-- Invocation `disgo` with one command, one healthy host, and a healthy
filesystem: the run completes and prints a summary line. -/
def worldOk : World :=
  ⟨["disgo"], "cmds.txt", "hosts.txt", some ["c1"], some ["h1"],
    fun _ => envAllOk, fun _ _ => 0, [true]⟩

/-! Basic facts about the filesystem model. -/

/-- Erasing a name not present leaves the filesystem unchanged. -/
theorem fsErase_of_not_mem (fs : List (ArtifactName × String)) (n : ArtifactName)
    (h : ∀ c, (n, c) ∉ fs) : fsErase fs n = fs := by
  rw [fsErase, List.filter_eq_self]
  intro e he
  rcases e with ⟨m, c⟩
  simp only [Bool.not_eq_true']
  apply beq_eq_false_iff_ne.mpr
  intro hmn
  exact h c (by simpa [hmn] using he)

/-- Writing a file twice keeps only the second content. -/
theorem fsSet_fsSet (fs : List (ArtifactName × String)) (n : ArtifactName) (c₁ c₂ : String) :
    fsSet (fsSet fs n c₁) n c₂ = fsSet fs n c₂ := by
  simp [fsSet, fsErase, List.filter_append, List.filter_filter]

/-- Reading back the file just written. -/
theorem fsGet_fsSet_self (fs : List (ArtifactName × String)) (n : ArtifactName) (c : String) :
    fsGet (fsSet fs n c) n = some c := by
  have herased : (fsErase fs n).find? (fun e => e.1 == n) = none := by
    rw [List.find?_eq_none]
    intro e he hp
    have := List.of_mem_filter he
    simp [hp] at this
  simp [fsGet, fsSet, List.find?_append, herased]

/-- After a write, exactly one file carries the written name. -/
theorem countName_fsSet_self (fs : List (ArtifactName × String)) (n : ArtifactName) (c : String) :
    countName (fsSet fs n c) n = 1 := by
  have : (fsErase fs n).filter (fun e => e.1 == n) = [] := by
    rw [List.filter_eq_nil_iff]
    intro e he hp
    have := List.of_mem_filter he
    simp [hp] at this
  simp [countName, fsSet, List.filter_append, this]

/-- Writing one name does not change how many files carry another name. -/
theorem countName_fsSet_ne (fs : List (ArtifactName × String)) (n m : ArtifactName)
    (c : String) (h : m ≠ n) : countName (fsSet fs n c) m = countName fs m := by
  have hpred : ∀ e ∈ fs, ((e : ArtifactName × String).1 == m && !(e.1 == n)) = (e.1 == m) := by
    intro e _
    cases hb : (e.1 == m) with
    | false => simp
    | true =>
      have : e.1 = m := beq_iff_eq.mp hb
      simp [this, beq_eq_false_iff_ne.mpr h]
  have hsingle : ([((n, c) : ArtifactName × String)].filter (fun e => e.1 == m)) = [] := by
    simp [beq_eq_false_iff_ne.mpr (fun hnm => h hnm.symm)]
  calc countName (fsSet fs n c) m
      = ((fsErase fs n).filter (fun e => e.1 == m)).length +
        ([((n, c) : ArtifactName × String)].filter (fun e => e.1 == m)).length := by
        simp [countName, fsSet, List.filter_append]
    _ = (fs.filter (fun e => e.1 == m)).length := by
        rw [hsingle, fsErase, List.filter_filter]
        simp only [List.length_nil, Nat.add_zero]
        rw [List.filter_congr hpred]
    _ = countName fs m := rfl

/-- Renaming onto `dst` installs the moved content as the unique file named
`dst`. -/
theorem fsRename_spec (fs : List (ArtifactName × String)) (src dst : ArtifactName)
    (c : String) (h : fsGet fs src = some c) :
    fsGet (fsRename fs src dst) dst = some c ∧ countName (fsRename fs src dst) dst = 1 := by
  rw [fsRename, h]
  exact ⟨fsGet_fsSet_self _ _ _, countName_fsSet_self _ _ _⟩

/-! The host order is a permutation: correctness of the embedded
`rand.Perm` algorithm. -/

/-- `rand.Perm(n)` returns a list of length `n`. -/
theorem length_randPermAux (rnd : Nat → Nat) : ∀ n, (randPermAux rnd n).length = n
  | 0 => rfl
  | n + 1 => by
    simp only [randPermAux]
    by_cases hj : rnd n % (n + 1) = n
    · simp [hj, length_randPermAux rnd n]
    · simp [hj, length_randPermAux rnd n]

/-- One Fisher–Yates step preserves the multiset: replacing position `j` by a
new value and appending the displaced old value permutes appending the new
value. -/
theorem set_getD_perm : ∀ (m : List Nat) (j v : Nat), j < m.length →
    ((m.set j v) ++ [m.getD j 0]).Perm (m ++ [v])
  | [], _, _, h => absurd h (by simp)
  | a :: t, 0, v, _ => by
    simp only [List.set_cons_zero, List.getD_cons_zero, List.cons_append]
    exact ((List.Perm.cons v (List.perm_append_singleton a t)).trans
      (List.Perm.swap a v t)).trans
      (List.Perm.cons a (List.perm_append_singleton v t).symm)
  | a :: t, j + 1, v, h => by
    simp only [List.set_cons_succ, List.getD_cons_succ, List.cons_append]
    exact List.Perm.cons a (set_getD_perm t j v (by simpa using h))

/-- The embedded `rand.Perm(n)` is a permutation of `[0..n)`, whatever the
random draws are. -/
theorem randPermAux_perm (rnd : Nat → Nat) : ∀ n, (randPermAux rnd n).Perm (List.range n)
  | 0 => List.Perm.refl []
  | n + 1 => by
    have ih := randPermAux_perm rnd n
    simp only [randPermAux]
    by_cases hj : rnd n % (n + 1) = n
    · rw [if_pos hj, List.range_succ]
      exact ih.append_right [n]
    · rw [if_neg hj, List.range_succ]
      have hlen : rnd n % (n + 1) < (randPermAux rnd n).length := by
        rw [length_randPermAux]
        have h2 : rnd n % (n + 1) < n + 1 := Nat.mod_lt _ (by omega)
        omega
      exact (set_getD_perm _ _ n hlen).trans (ih.append_right [n])

/-- `randPerm` is a permutation of the host-index range. -/
theorem randPerm_perm (rnd : Nat → Nat) (n : Nat) : (randPerm rnd n).Perm (List.range n) :=
  randPermAux_perm rnd n

/-- `randPerm` has one entry per host. -/
theorem randPerm_length (rnd : Nat → Nat) (n : Nat) : (randPerm rnd n).length = n :=
  length_randPermAux rnd n

/-- Membership in the host order is exactly being a valid host index. -/
theorem mem_randPerm (rnd : Nat → Nat) (n i : Nat) : i ∈ randPerm rnd n ↔ i < n := by
  rw [(randPerm_perm rnd n).mem_iff, List.mem_range]

/-! Attempt sequence numbering. -/

/-- `seqFrom a k` is the range `[a, a+k)` in order. -/
theorem seqFrom_eq_map : ∀ (k a : Nat), seqFrom a k = (List.range k).map (fun j => a + j)
  | 0, _ => by simp [seqFrom]
  | k + 1, a => by
    rw [seqFrom, seqFrom_eq_map k (a + 1), List.range_succ_eq_map]
    simp only [List.map_cons, List.map_map, Nat.add_zero, List.cons.injEq, true_and]
    apply List.map_congr_left
    intro j _
    simp [Function.comp]
    omega

/-- Attempt numbering starting at 0 is exactly `0, 1, 2, ...`. -/
theorem seqFrom_zero (k : Nat) : seqFrom 0 k = List.range k := by
  rw [seqFrom_eq_map]
  simp

/-! Behaviour of the dispatch retry loop. -/

/-- When artifact creation never fails, the loop sends exactly one boolean on
the completion channel and never panics, on every control path. -/
theorem dispatchLoop_sent_one (id : Nat) (env : Env) (hosts : List String)
    (hc : ∀ n, env.createOk n = true) :
    ∀ (order : List Nat) (a : Nat) (st : DState),
      ∃ b, (dispatchLoop id env hosts order a st).sent = st.sent ++ [b] ∧
        (dispatchLoop id env hosts order a st).panicked = st.panicked := by
  intro order
  induction order with
  | nil => exact fun a st => ⟨false, rfl, rfl⟩
  | cons i rest ih =>
    intro a st
    cases he : env.execOk i with
    | true =>
      refine ⟨true, ?_, ?_⟩ <;>
        · simp only [dispatchLoop, hc, if_true, he]
          by_cases hr : env.renameOk <;> simp [hr]
    | false =>
      obtain ⟨b, h1, h2⟩ := ih (a + 1)
        { st with fs := fsSet st.fs (ArtifactName.attempt id a) (env.outputOf i),
                  attemptSeqs := st.attemptSeqs ++ [a],
                  diags := (st.diags ++ [execMsg id (hosts.getD i "")]) ++ [errMsg id (env.errDetail i)],
                  hostsTried := st.hostsTried ++ [i] }
      refine ⟨b, ?_, ?_⟩
      · simp only [dispatchLoop, hc, if_true, he, Bool.false_eq_true, if_false, fsSet_fsSet]
        simpa using h1
      · simp only [dispatchLoop, hc, if_true, he, Bool.false_eq_true, if_false, fsSet_fsSet]
        simpa using h2

/-- A final name is never an attempt name. -/
theorem final_ne_attempt (id i s : Nat) :
    ArtifactName.final id ≠ ArtifactName.attempt i s := by
  intro h
  exact ArtifactName.noConfusion h

/-- When every host in the remaining order fails (and creation succeeds), the
loop exhausts the order: it sends `false`, never calls `os.Rename`, tries
every host in order, numbers the attempts consecutively, and writes exactly
the per-attempt output files. -/
theorem dispatchLoop_allFail (id : Nat) (env : Env) (hosts : List String)
    (hc : ∀ n, env.createOk n = true) :
    ∀ (order : List Nat) (a : Nat) (st : DState), (∀ i ∈ order, env.execOk i = false) →
      (dispatchLoop id env hosts order a st).sent = st.sent ++ [false] ∧
      (dispatchLoop id env hosts order a st).renameCalls = st.renameCalls ∧
      (dispatchLoop id env hosts order a st).hostsTried = st.hostsTried ++ order ∧
      (dispatchLoop id env hosts order a st).attemptSeqs =
        st.attemptSeqs ++ seqFrom a order.length ∧
      (dispatchLoop id env hosts order a st).fs = addFails env id order a st.fs := by
  intro order
  induction order with
  | nil =>
    intro a st _
    exact ⟨rfl, rfl, by simp [dispatchLoop], by simp [dispatchLoop, seqFrom], rfl⟩
  | cons i rest ih =>
    intro a st h
    have hi : env.execOk i = false := h i (by simp)
    have hrest : ∀ j ∈ rest, env.execOk j = false := fun j hj => h j (by simp [hj])
    obtain ⟨h1, h2, h3, h4, h5⟩ := ih (a + 1)
      { st with fs := fsSet st.fs (ArtifactName.attempt id a) (env.outputOf i),
                attemptSeqs := st.attemptSeqs ++ [a],
                diags := (st.diags ++ [execMsg id (hosts.getD i "")]) ++ [errMsg id (env.errDetail i)],
                hostsTried := st.hostsTried ++ [i] }
      hrest
    refine ⟨?_, ?_, ?_, ?_, ?_⟩ <;>
      simp only [dispatchLoop, hc, if_true, hi, Bool.false_eq_true, if_false, fsSet_fsSet]
    · simpa using h1
    · simpa using h2
    · rw [h3]
      simp
    · rw [h4]
      simp [seqFrom, List.append_assoc]
    · rw [h5]
      rfl

/-- When some host in the remaining order succeeds (and creation succeeds),
the loop stops at the first such host `j`: it sends `true`, issues exactly one
`os.Rename` from the successful attempt's name to the final name, and — if the
rename succeeds — the final artifact uniquely exists and holds `j`'s output,
while if the rename fails the output stays under the attempt name, the number
of final artifacts is unchanged, and the degraded-path diagnostic is
emitted. -/
theorem dispatchLoop_firstSucc (id : Nat) (env : Env) (hosts : List String)
    (hc : ∀ n, env.createOk n = true) :
    ∀ (order : List Nat) (a : Nat) (st : DState) (j : Nat), firstSucc env order = some j →
      ∃ k, (dispatchLoop id env hosts order a st).sent = st.sent ++ [true] ∧
        (dispatchLoop id env hosts order a st).renameCalls =
          st.renameCalls ++ [(ArtifactName.attempt id k, ArtifactName.final id)] ∧
        env.execOk j = true ∧
        (env.renameOk = true →
          fsGet (dispatchLoop id env hosts order a st).fs (ArtifactName.final id) =
            some (env.outputOf j) ∧
          countName (dispatchLoop id env hosts order a st).fs (ArtifactName.final id) = 1) ∧
        (env.renameOk = false →
          fsGet (dispatchLoop id env hosts order a st).fs (ArtifactName.attempt id k) =
            some (env.outputOf j) ∧
          countName (dispatchLoop id env hosts order a st).fs (ArtifactName.final id) =
            countName st.fs (ArtifactName.final id) ∧
          renameErrMsg id (ArtifactName.final id).render (ArtifactName.attempt id k).render ∈
            (dispatchLoop id env hosts order a st).diags) := by
  intro order
  induction order with
  | nil =>
    intro a st j hj
    simp [firstSucc] at hj
  | cons i rest ih =>
    intro a st j hj
    cases he : env.execOk i with
    | true =>
      have hji : j = i := by
        rw [firstSucc, List.find?_cons_of_pos _ he] at hj
        exact (Option.some.injEq _ _ ▸ hj).symm
      subst hji
      refine ⟨a, ?_, ?_, he, ?_, ?_⟩ <;>
        simp only [dispatchLoop, hc, if_true, he, fsSet_fsSet]
      · by_cases hr : env.renameOk <;> simp [hr]
      · by_cases hr : env.renameOk <;> simp [hr]
      · intro hr
        simp only [hr, if_true]
        have hget : fsGet (fsSet st.fs (ArtifactName.attempt id a) (env.outputOf j))
            (ArtifactName.attempt id a) = some (env.outputOf j) := fsGet_fsSet_self _ _ _
        have := fsRename_spec (fsSet st.fs (ArtifactName.attempt id a) (env.outputOf j))
          (ArtifactName.attempt id a) (ArtifactName.final id) (env.outputOf j) hget
        simpa using this
      · intro hr
        simp only [hr, Bool.false_eq_true, if_false]
        refine ⟨?_, ?_, ?_⟩
        · simpa using fsGet_fsSet_self st.fs (ArtifactName.attempt id a) (env.outputOf j)
        · simpa using countName_fsSet_ne st.fs (ArtifactName.attempt id a)
            (ArtifactName.final id) (env.outputOf j) (final_ne_attempt id id a)
        · simp
    | false =>
      have hjrest : firstSucc env rest = some j := by
        rw [firstSucc, List.find?_cons_of_neg _ (by simp [he])] at hj
        exact hj
      obtain ⟨k, h1, h2, h3, h4, h5⟩ := ih (a + 1)
        { st with fs := fsSet st.fs (ArtifactName.attempt id a) (env.outputOf i),
                  attemptSeqs := st.attemptSeqs ++ [a],
                  diags := (st.diags ++ [execMsg id (hosts.getD i "")]) ++ [errMsg id (env.errDetail i)],
                  hostsTried := st.hostsTried ++ [i] }
        j hjrest
      refine ⟨k, ?_, ?_, h3, ?_, ?_⟩ <;>
        simp only [dispatchLoop, hc, if_true, he, Bool.false_eq_true, if_false, fsSet_fsSet]
      · simpa using h1
      · simpa using h2
      · exact h4
      · intro hr
        obtain ⟨g1, g2, g3⟩ := h5 hr
        refine ⟨g1, ?_, g3⟩
        rw [g2]
        exact countName_fsSet_ne st.fs (ArtifactName.attempt id a)
          (ArtifactName.final id) (env.outputOf i) (final_ne_attempt id id a)

/-- Whatever the environment does (success, failure, or a create panic), the
attempt sequence numbers the loop consumes are consecutive from the starting
counter: no gap, no reuse. -/
theorem dispatchLoop_seqs (id : Nat) (env : Env) (hosts : List String) :
    ∀ (order : List Nat) (a : Nat) (st : DState),
      ∃ k, k ≤ order.length ∧
        (dispatchLoop id env hosts order a st).attemptSeqs = st.attemptSeqs ++ seqFrom a k := by
  intro order
  induction order with
  | nil =>
    intro a st
    exact ⟨0, Nat.le_refl 0, by simp [dispatchLoop, seqFrom]⟩
  | cons i rest ih =>
    intro a st
    cases hcr : env.createOk (ArtifactName.attempt id a) with
    | false =>
      refine ⟨1, by simp, ?_⟩
      simp [dispatchLoop, hcr, seqFrom]
    | true =>
      cases he : env.execOk i with
      | true =>
        refine ⟨1, by simp, ?_⟩
        simp only [dispatchLoop, hcr, if_true, he]
        by_cases hr : env.renameOk <;> simp [hr, seqFrom]
      | false =>
        obtain ⟨k, hk, hseq⟩ := ih (a + 1)
          { st with fs := fsSet st.fs (ArtifactName.attempt id a) (env.outputOf i),
                    attemptSeqs := st.attemptSeqs ++ [a],
                    diags := (st.diags ++ [execMsg id (hosts.getD i "")]) ++ [errMsg id (env.errDetail i)],
                    hostsTried := st.hostsTried ++ [i] }
        refine ⟨k + 1, by simpa using Nat.succ_le_succ hk, ?_⟩
        simp only [dispatchLoop, hcr, if_true, he, Bool.false_eq_true, if_false, fsSet_fsSet]
        rw [show seqFrom a (k + 1) = a :: seqFrom (a + 1) k from rfl]
        simpa using hseq

/-- Whatever the environment does, the hosts the remote executor is invoked
on are an initial segment of the order, in order. -/
theorem dispatchLoop_tried (id : Nat) (env : Env) (hosts : List String) :
    ∀ (order : List Nat) (a : Nat) (st : DState),
      ∃ t, (dispatchLoop id env hosts order a st).hostsTried = st.hostsTried ++ t ∧
        t <+: order := by
  intro order
  induction order with
  | nil =>
    intro a st
    exact ⟨[], by simp [dispatchLoop], ⟨[], rfl⟩⟩
  | cons i rest ih =>
    intro a st
    cases hcr : env.createOk (ArtifactName.attempt id a) with
    | false =>
      refine ⟨[], ?_, ⟨i :: rest, rfl⟩⟩
      simp [dispatchLoop, hcr]
    | true =>
      cases he : env.execOk i with
      | true =>
        refine ⟨[i], ?_, ⟨rest, rfl⟩⟩
        simp only [dispatchLoop, hcr, if_true, he]
        by_cases hr : env.renameOk <;> simp [hr]
      | false =>
        obtain ⟨t, ht, ⟨u, hu⟩⟩ := ih (a + 1)
          { st with fs := fsSet st.fs (ArtifactName.attempt id a) (env.outputOf i),
                    attemptSeqs := st.attemptSeqs ++ [a],
                    diags := (st.diags ++ [execMsg id (hosts.getD i "")]) ++ [errMsg id (env.errDetail i)],
                    hostsTried := st.hostsTried ++ [i] }
        refine ⟨i :: t, ?_, ⟨u, by simp [hu]⟩⟩
        simp only [dispatchLoop, hcr, if_true, he, Bool.false_eq_true, if_false, fsSet_fsSet]
        simpa using ht

/-- If `os.Create` fails on the very first attempt of a nonempty order, the
goroutine panics at once: nothing is sent, no artifact is written, no host is
tried. -/
theorem dispatchLoop_panic (id : Nat) (env : Env) (hosts : List String)
    (i : Nat) (rest : List Nat) (st : DState)
    (h0 : env.createOk (ArtifactName.attempt id 0) = false) :
    (dispatchLoop id env hosts (i :: rest) 0 st).panicked = true ∧
    (dispatchLoop id env hosts (i :: rest) 0 st).sent = st.sent ∧
    (dispatchLoop id env hosts (i :: rest) 0 st).fs = st.fs ∧
    (dispatchLoop id env hosts (i :: rest) 0 st).hostsTried = st.hostsTried := by
  refine ⟨?_, ?_, ?_, ?_⟩ <;> simp [dispatchLoop, h0]

/-! Counting the artifacts of an exhausted run. -/

/-- When none of the attempt names it writes are present yet, the exhausted
run's filesystem is the old one plus one output file per attempt. -/
theorem addFails_of_fresh (env : Env) (id : Nat) :
    ∀ (order : List Nat) (a : Nat) (fs : List (ArtifactName × String)),
      (∀ k c, a ≤ k → (ArtifactName.attempt id k, c) ∉ fs) →
      addFails env id order a fs = fs ++ failFiles env id order a := by
  intro order
  induction order with
  | nil => intro a fs _; simp [addFails, failFiles]
  | cons i rest ih =>
    intro a fs h
    have herase : fsErase fs (ArtifactName.attempt id a) = fs :=
      fsErase_of_not_mem fs _ (fun c => h a c (Nat.le_refl a))
    have hfresh : ∀ k c, a + 1 ≤ k →
        (ArtifactName.attempt id k, c) ∉ fs ++ [(ArtifactName.attempt id a, env.outputOf i)] := by
      intro k c hk hmem
      rcases List.mem_append.mp hmem with hin | hin
      · exact h k c (by omega) hin
      · have : (ArtifactName.attempt id k) = (ArtifactName.attempt id a) := by
          simpa using congrArg Prod.fst (List.mem_singleton.mp hin)
        have : k = a := by simpa using this
        omega
    rw [addFails, fsSet, herase, ih (a + 1) _ hfresh, failFiles]
    simp

/-- Every file of an exhausted run is an attempt artifact of the command. -/
theorem attemptCount_failFiles (env : Env) (id : Nat) :
    ∀ (order : List Nat) (a : Nat), attemptCount (failFiles env id order a) id = order.length := by
  intro order
  induction order with
  | nil => intro a; rfl
  | cons i rest ih =>
    intro a
    simp [failFiles, attemptCount, ArtifactName.isAttemptOf, List.filter_cons]
    have := ih (a + 1)
    simpa [attemptCount] using this

/-- An exhausted run promotes nothing: no file carries the final name. -/
theorem countName_failFiles_final (env : Env) (id fid : Nat) :
    ∀ (order : List Nat) (a : Nat),
      countName (failFiles env id order a) (ArtifactName.final fid) = 0 := by
  intro order
  induction order with
  | nil => intro a; rfl
  | cons i rest ih =>
    intro a
    simp only [failFiles, countName, List.filter_cons]
    have hne : ((ArtifactName.attempt id a : ArtifactName) == ArtifactName.final fid) = false :=
      beq_eq_false_iff_ne.mpr (fun h => final_ne_attempt fid id a h.symm)
    simp only [hne, Bool.false_eq_true, if_false]
    exact ih (a + 1)

/-! The coordinator's collection loop. -/

/-- With at least `n` deliveries available, the loop consumes exactly the
first `n` and counts the `true`s among them. -/
theorem collectLoop_take :
    ∀ (n : Nat) (chan : List Bool) (acc : Nat), n ≤ chan.length →
      collectLoop n acc chan = some (acc + (chan.take n).count true) := by
  intro n
  induction n with
  | zero => intro chan acc _; simp [collectLoop]
  | succ n ih =>
    intro chan acc h
    cases chan with
    | nil => simp at h
    | cons b rest =>
      rw [collectLoop, ih rest _ (by simpa using h)]
      cases b <;> simp [List.count_cons] <;> omega

/-- With fewer than `n` deliveries the loop never completes: the coordinator
blocks until all results have arrived. -/
theorem collectLoop_short :
    ∀ (n : Nat) (chan : List Bool) (acc : Nat), chan.length < n →
      collectLoop n acc chan = none := by
  intro n
  induction n with
  | zero => intro chan acc h; simp at h
  | succ n ih =>
    intro chan acc h
    cases chan with
    | nil => rfl
    | cons b rest => exact ih rest _ (by simpa using h)

/-- The success count never exceeds the number of receives. -/
theorem collectLoop_le :
    ∀ (n : Nat) (chan : List Bool) (acc k : Nat), collectLoop n acc chan = some k →
      k ≤ acc + n := by
  intro n
  induction n with
  | zero =>
    intro chan acc k h
    simp [collectLoop] at h
    omega
  | succ n ih =>
    intro chan acc k h
    cases chan with
    | nil => simp [collectLoop] at h
    | cons b rest =>
      rw [collectLoop] at h
      have := ih rest _ k h
      cases b <;> simp at this <;> omega

/-! The claims. -/

/-- C1: for every command dispatched with a non-empty host pool, if the remote
executor succeeds on some host of the pool (under a healthy filesystem: every
`os.Create` and the `os.Rename` succeed), the completion result sent on the
channel is `true` and exactly one final artifact — named from the command id
alone, `cmd_<id>-final.log` — exists for the command, containing the captured
output of the succeeding attempt (the first host in the permutation whose
execution succeeds). -/
theorem claim_C1 (id : Nat) (command : String) (hosts : List String) (env : Env)
    (rnd : Nat → Nat)
    (hc : ∀ n, env.createOk n = true) (hr : env.renameOk = true)
    (hs : ∃ i, i < hosts.length ∧ env.execOk i = true) :
    (dispatch id command hosts env rnd).sent = [true] ∧
    countName (dispatch id command hosts env rnd).fs (ArtifactName.final id) = 1 ∧
    (∃ j, firstSucc env (randPerm rnd hosts.length) = some j ∧ env.execOk j = true ∧
      fsGet (dispatch id command hosts env rnd).fs (ArtifactName.final id) =
        some (env.outputOf j)) ∧
    (ArtifactName.final id).render = s!"cmd_{id}-final.log" := by
  obtain ⟨i, hi, hex⟩ := hs
  have hmem : ∃ x, x ∈ randPerm rnd hosts.length ∧ env.execOk x = true :=
    ⟨i, (mem_randPerm rnd hosts.length i).mpr hi, hex⟩
  have hsome : (firstSucc env (randPerm rnd hosts.length)).isSome := by
    rw [firstSucc, List.find?_isSome]
    exact hmem
  obtain ⟨j, hj⟩ := Option.isSome_iff_exists.mp hsome
  obtain ⟨k, h1, _, h3, h4, _⟩ :=
    dispatchLoop_firstSucc id env hosts hc (randPerm rnd hosts.length) 0 {} j hj
  obtain ⟨g1, g2⟩ := h4 hr
  refine ⟨?_, ?_, ⟨j, hj, h3, ?_⟩, rfl⟩
  · simpa [dispatch] using h1
  · simpa [dispatch] using g2
  · simpa [dispatch] using g1

/-- C2: for every command where the remote executor fails on every host of the
pool (artifact creation succeeding), the completion result is `false`, no
final artifact is promoted (no rename is even attempted and no file carries
the final name), and the number of attempt artifacts created equals the host
pool size. -/
theorem claim_C2 (id : Nat) (command : String) (hosts : List String) (env : Env)
    (rnd : Nat → Nat)
    (hc : ∀ n, env.createOk n = true)
    (hf : ∀ i, i < hosts.length → env.execOk i = false) :
    (dispatch id command hosts env rnd).sent = [false] ∧
    (dispatch id command hosts env rnd).renameCalls = [] ∧
    countName (dispatch id command hosts env rnd).fs (ArtifactName.final id) = 0 ∧
    attemptCount (dispatch id command hosts env rnd).fs id = hosts.length := by
  have horder : ∀ i ∈ randPerm rnd hosts.length, env.execOk i = false :=
    fun i h => hf i ((mem_randPerm rnd hosts.length i).mp h)
  obtain ⟨h1, h2, _, _, h5⟩ :=
    dispatchLoop_allFail id env hosts hc (randPerm rnd hosts.length) 0 {} horder
  have hfs : (dispatch id command hosts env rnd).fs =
      failFiles env id (randPerm rnd hosts.length) 0 := by
    rw [dispatch]
    rw [h5]
    have := addFails_of_fresh env id (randPerm rnd hosts.length) 0 []
      (fun k c _ h => by simp at h)
    simpa using this
  refine ⟨by simpa [dispatch] using h1, by simpa [dispatch] using h2, ?_, ?_⟩
  · rw [hfs, countName_failFiles_final]
  · rw [hfs, attemptCount_failFiles, randPerm_length]

/-- C3: for every command — whatever the environment, even a panicking run —
the attempt sequence numbers used to name the command's attempt artifacts are
exactly `0, 1, ..., k-1` for some `k ≤ H`: strictly increasing from 0 with no
gap and no reuse, so the attempt artifact names are pairwise distinct. -/
theorem claim_C3 (id : Nat) (command : String) (hosts : List String) (env : Env)
    (rnd : Nat → Nat) :
    ∃ k, k ≤ hosts.length ∧
      (dispatch id command hosts env rnd).attemptSeqs = List.range k ∧
      ((dispatch id command hosts env rnd).attemptSeqs.map
        (fun s => ArtifactName.attempt id s)).Nodup := by
  obtain ⟨k, hk, hseq⟩ :=
    dispatchLoop_seqs id env hosts (randPerm rnd hosts.length) 0 {}
  have hrange : (dispatch id command hosts env rnd).attemptSeqs = List.range k := by
    rw [dispatch]
    rw [hseq, seqFrom_zero]
    simp
  refine ⟨k, ?_, hrange, ?_⟩
  · rw [randPerm_length] at hk
    exact hk
  · rw [hrange]
    refine List.Nodup.map ?_ (List.nodup_range k)
    intro x y hxy
    simpa using hxy

/-- C4: every command produces exactly one completion result.  Part one: when
artifact creation succeeds, a dispatch goroutine sends exactly one boolean on
the completion channel (and does not panic), on every path — success,
exhaustion, or empty host pool.  Part two: the coordinator's loop consumes
exactly `len(commands)` messages from the channel (counting the `true`s among
precisely the first `numCommands` deliveries) and blocks forever — produces
no summary — when fewer messages than commands ever arrive; it uses no
secondary completion signal. -/
theorem claim_C4 :
    (∀ (id : Nat) (command : String) (hosts : List String) (env : Env) (rnd : Nat → Nat),
      (∀ n, env.createOk n = true) →
      (dispatch id command hosts env rnd).sent.length = 1 ∧
      (dispatch id command hosts env rnd).panicked = false) ∧
    (∀ (numCommands : Nat) (chan : List Bool), numCommands ≤ chan.length →
      mainCollect numCommands chan =
        some { succeeded := (chan.take numCommands).count true,
               failed := numCommands - (chan.take numCommands).count true,
               total := numCommands }) ∧
    (∀ (numCommands : Nat) (chan : List Bool), chan.length < numCommands →
      mainCollect numCommands chan = none) := by
  refine ⟨?_, ?_, ?_⟩
  · intro id command hosts env rnd hc
    obtain ⟨b, h1, h2⟩ :=
      dispatchLoop_sent_one id env hosts hc (randPerm rnd hosts.length) 0 {}
    constructor
    · rw [dispatch]
      rw [h1]
      simp
    · rw [dispatch]
      rw [h2]
  · intro numCommands chan h
    rw [mainCollect, collectLoop_take numCommands chan 0 h]
    simp [Option.map]
  · intro numCommands chan h
    rw [mainCollect, collectLoop_short numCommands chan 0 h]
    rfl

/-- Witness for C4 at concrete inputs: one host, always-succeeding executor,
healthy filesystem; a two-command channel delivering `[true, false]`. -/
theorem claim_C4_witness :
    ((dispatch 0 "cmd" ["h1"] envAllOk rzero).sent.length = 1 ∧
     (dispatch 0 "cmd" ["h1"] envAllOk rzero).panicked = false) ∧
    mainCollect 2 [true, false] = some { succeeded := 1, failed := 1, total := 2 } ∧
    mainCollect 2 [true] = none := by
  refine ⟨claim_C4.1 0 "cmd" ["h1"] envAllOk rzero (fun n => rfl), ?_, ?_⟩
  · have h := claim_C4.2.1 2 [true, false] (by decide)
    simpa using h
  · exact claim_C4.2.2 2 [true] (by decide)

/-- C5 is false as stated: with two hosts, a random order `[1, 0]`, and an
executor that succeeds everywhere, the command tries only host index 1 — the
loop returns as soon as a host succeeds — so the sequence of hosts tried
(`[1]`) is not a permutation of the full pool `[0, 1]`: index 0 is omitted. -/
theorem claim_C5_counterexample :
    (dispatch 0 "cmd" ["hostA", "hostB"] envAllOk rzero).hostsTried = [1] ∧
    ¬ ((dispatch 0 "cmd" ["hostA", "hostB"] envAllOk rzero).hostsTried.Perm
        (List.range 2)) := by
  have htried : (dispatch 0 "cmd" ["hostA", "hostB"] envAllOk rzero).hostsTried = [1] := rfl
  refine ⟨htried, ?_⟩
  intro h
  have hlen := h.length_eq
  rw [htried] at hlen
  simp at hlen

/-- C5, amended: the host order computed for a command is a permutation of
the full pool `[0..H)` (no repeats, no omissions), and the hosts actually
tried are an initial segment of that permutation, tried strictly sequentially
in its order; when no host succeeds (and creation succeeds) the tried
sequence is the whole permutation, hence the whole pool. -/
theorem claim_C5_amended (id : Nat) (command : String) (hosts : List String) (env : Env)
    (rnd : Nat → Nat) :
    (randPerm rnd hosts.length).Perm (List.range hosts.length) ∧
    (dispatch id command hosts env rnd).hostsTried <+: randPerm rnd hosts.length ∧
    ((∀ n, env.createOk n = true) → (∀ i, i < hosts.length → env.execOk i = false) →
      (dispatch id command hosts env rnd).hostsTried = randPerm rnd hosts.length) := by
  refine ⟨randPerm_perm rnd hosts.length, ?_, ?_⟩
  · obtain ⟨t, ht, hpre⟩ :=
      dispatchLoop_tried id env hosts (randPerm rnd hosts.length) 0 {}
    have : (dispatch id command hosts env rnd).hostsTried = t := by
      rw [dispatch]
      rw [ht]
      simp
    rw [this]
    exact hpre
  · intro hc hf
    have horder : ∀ i ∈ randPerm rnd hosts.length, env.execOk i = false :=
      fun i h => hf i ((mem_randPerm rnd hosts.length i).mp h)
    obtain ⟨_, _, h3, _, _⟩ :=
      dispatchLoop_allFail id env hosts hc (randPerm rnd hosts.length) 0 {} horder
    rw [dispatch]
    rw [h3]
    simp

/-- Witness for the amended C5 at concrete inputs: two hosts, every execution
failing, so the tried sequence equals the full permutation. -/
theorem claim_C5_witness :
    (randPerm rzero 2).Perm (List.range 2) ∧
    (dispatch 1 "cmd" ["hostA", "hostB"] envNoExec rzero).hostsTried <+: randPerm rzero 2 ∧
    (dispatch 1 "cmd" ["hostA", "hostB"] envNoExec rzero).hostsTried = randPerm rzero 2 := by
  have h := claim_C5_amended 1 "cmd" ["hostA", "hostB"] envNoExec rzero
  exact ⟨h.1, h.2.1, h.2.2 (fun n => rfl) (fun i _ => rfl)⟩

/-- C6: a command dispatched with an empty host pool immediately reports
failure: the completion result is `false`, no attempt artifact is created, no
attempt sequence number is consumed, the remote executor is never invoked, no
rename happens, and the goroutine does not panic. -/
theorem claim_C6 (id : Nat) (command : String) (env : Env) (rnd : Nat → Nat) :
    (dispatch id command [] env rnd).sent = [false] ∧
    (dispatch id command [] env rnd).fs = [] ∧
    (dispatch id command [] env rnd).attemptSeqs = [] ∧
    (dispatch id command [] env rnd).hostsTried = [] ∧
    (dispatch id command [] env rnd).renameCalls = [] ∧
    (dispatch id command [] env rnd).panicked = false :=
  ⟨rfl, rfl, rfl, rfl, rfl, rfl⟩

/-- C7: when the rename promoting a successful attempt fails (executions
succeed somewhere, creation is healthy, `os.Rename` errors), the outcome is
degraded but non-fatal: the completion result is still `true`, no file
carries the final name, the degraded-path diagnostic line is emitted, the
durable record stays under the successful attempt's numbered name with the
succeeding attempt's output, and the single rename call is issued for exactly
the attempt on which the executor succeeded — promotion is attempted only
after success. -/
theorem claim_C7 (id : Nat) (command : String) (hosts : List String) (env : Env)
    (rnd : Nat → Nat)
    (hc : ∀ n, env.createOk n = true) (hr : env.renameOk = false)
    (hs : ∃ i, i < hosts.length ∧ env.execOk i = true) :
    (dispatch id command hosts env rnd).sent = [true] ∧
    countName (dispatch id command hosts env rnd).fs (ArtifactName.final id) = 0 ∧
    ∃ j k, firstSucc env (randPerm rnd hosts.length) = some j ∧ env.execOk j = true ∧
      (dispatch id command hosts env rnd).renameCalls =
        [(ArtifactName.attempt id k, ArtifactName.final id)] ∧
      fsGet (dispatch id command hosts env rnd).fs (ArtifactName.attempt id k) =
        some (env.outputOf j) ∧
      renameErrMsg id (ArtifactName.final id).render (ArtifactName.attempt id k).render ∈
        (dispatch id command hosts env rnd).diags := by
  obtain ⟨i, hi, hex⟩ := hs
  have hsome : (firstSucc env (randPerm rnd hosts.length)).isSome := by
    rw [firstSucc, List.find?_isSome]
    exact ⟨i, (mem_randPerm rnd hosts.length i).mpr hi, hex⟩
  obtain ⟨j, hj⟩ := Option.isSome_iff_exists.mp hsome
  obtain ⟨k, h1, h2, h3, _, h5⟩ :=
    dispatchLoop_firstSucc id env hosts hc (randPerm rnd hosts.length) 0 {} j hj
  obtain ⟨g1, g2, g3⟩ := h5 hr
  refine ⟨by simpa [dispatch] using h1, ?_, j, k, hj, h3, by simpa [dispatch] using h2,
    by simpa [dispatch] using g1, by simpa [dispatch] using g3⟩
  have : countName (DState.fs {}) (ArtifactName.final id) = 0 := rfl
  rw [dispatch]
  rw [g2]
  rfl

/-- Witness for C7 at concrete inputs: one host, succeeding executor, rename
forced to fail. -/
theorem claim_C7_witness :
    (dispatch 0 "cmd" ["h1"] envNoRename rzero).sent = [true] ∧
    countName (dispatch 0 "cmd" ["h1"] envNoRename rzero).fs (ArtifactName.final 0) = 0 ∧
    ∃ j k, firstSucc envNoRename (randPerm rzero 1) = some j ∧ envNoRename.execOk j = true ∧
      (dispatch 0 "cmd" ["h1"] envNoRename rzero).renameCalls =
        [(ArtifactName.attempt 0 k, ArtifactName.final 0)] ∧
      fsGet (dispatch 0 "cmd" ["h1"] envNoRename rzero).fs (ArtifactName.attempt 0 k) =
        some (envNoRename.outputOf j) ∧
      renameErrMsg 0 (ArtifactName.final 0).render (ArtifactName.attempt 0 k).render ∈
        (dispatch 0 "cmd" ["h1"] envNoRename rzero).diags :=
  claim_C7 0 "cmd" ["h1"] envNoRename rzero (fun n => rfl) rfl ⟨0, by decide, rfl⟩

/-- Witness for C1 at concrete inputs: one host, always-succeeding executor,
healthy filesystem. -/
theorem claim_C1_witness :
    (dispatch 2 "cmd" ["h1"] envAllOk rzero).sent = [true] ∧
    countName (dispatch 2 "cmd" ["h1"] envAllOk rzero).fs (ArtifactName.final 2) = 1 ∧
    (∃ j, firstSucc envAllOk (randPerm rzero 1) = some j ∧ envAllOk.execOk j = true ∧
      fsGet (dispatch 2 "cmd" ["h1"] envAllOk rzero).fs (ArtifactName.final 2) =
        some (envAllOk.outputOf j)) ∧
    (ArtifactName.final 2).render = "cmd_2-final.log" :=
  claim_C1 2 "cmd" ["h1"] envAllOk rzero (fun n => rfl) rfl ⟨0, by decide, rfl⟩

/-- Witness for C2 at concrete inputs: two hosts, every execution failing. -/
theorem claim_C2_witness :
    (dispatch 3 "cmd" ["hostA", "hostB"] envNoExec rzero).sent = [false] ∧
    (dispatch 3 "cmd" ["hostA", "hostB"] envNoExec rzero).renameCalls = [] ∧
    countName (dispatch 3 "cmd" ["hostA", "hostB"] envNoExec rzero).fs
      (ArtifactName.final 3) = 0 ∧
    attemptCount (dispatch 3 "cmd" ["hostA", "hostB"] envNoExec rzero).fs 3 = 2 :=
  claim_C2 3 "cmd" ["hostA", "hostB"] envNoExec rzero (fun n => rfl) (fun i _ => rfl)

/-- The summary computed by the collection loop always balances:
`succeeded + failed = total = numCommands`. -/
theorem mainCollect_inv (numCommands : Nat) (chan : List Bool) (s : Summary)
    (h : mainCollect numCommands chan = some s) :
    s.succeeded + s.failed = s.total ∧ s.total = numCommands := by
  rw [mainCollect] at h
  cases hcoll : collectLoop numCommands 0 chan with
  | none => rw [hcoll] at h; simp at h
  | some k =>
    rw [hcoll] at h
    simp only [Option.map_some', Option.some.injEq] at h
    have hk : k ≤ numCommands := by
      have := collectLoop_le numCommands chan 0 k hcoll
      omega
    rw [← h]
    constructor
    · simp only []
      omega
    · rfl

/-- C8: when all commands have reached a terminal state, the run summary
satisfies `succeeded + failed = total = len(commands)` (first part, about the
collection loop); and whenever `main` emits its final line, that line is the
formatted succeeded/failed/total report of a summary satisfying the balance,
with `total` the number of commands read (second part). -/
theorem claim_C8 :
    (∀ (numCommands : Nat) (chan : List Bool) (s : Summary),
      mainCollect numCommands chan = some s →
      s.succeeded + s.failed = s.total ∧ s.total = numCommands) ∧
    (∀ (w : World) (line : String), (mainProg w).summaryLine = some line →
      ∃ s : Summary, line = finalLine s ∧ s.succeeded + s.failed = s.total ∧
        s.total = (w.cmdsFile.getD []).length) := by
  refine ⟨mainCollect_inv, ?_⟩
  intro w line h
  unfold mainProg at h
  split at h
  · simp at h
  split at h
  · simp at h
  next commands hcf =>
    split at h
    · simp at h
    next hosts hhf =>
      simp only [] at h
      split at h
      · simp at h
      · simp only [Option.map_eq_some'] at h
        obtain ⟨s, hs1, hs2⟩ := h
        obtain ⟨hb, ht⟩ := mainCollect_inv commands.length w.arrival s hs1
        exact ⟨s, hs2.symm, hb, by rw [hcf]; simpa using ht⟩

/-- Witness for C8 at concrete inputs: a two-delivery channel, and the
one-command world `worldOk` whose run prints `FINISHED=1 FAILED=0 TOTAL=1`. -/
theorem claim_C8_witness :
    ((⟨1, 1, 2⟩ : Summary).succeeded + (⟨1, 1, 2⟩ : Summary).failed =
      (⟨1, 1, 2⟩ : Summary).total ∧ (⟨1, 1, 2⟩ : Summary).total = 2) ∧
    ∃ s : Summary, "FINISHED=1 FAILED=0 TOTAL=1" = finalLine s ∧
      s.succeeded + s.failed = s.total ∧ s.total = 1 :=
  ⟨claim_C8.1 2 [true, false] ⟨1, 1, 2⟩ rfl,
   claim_C8.2 worldOk "FINISHED=1 FAILED=0 TOTAL=1" rfl⟩

/-- C9: if creating an attempt's output artifact fails, the failure is fatal
to the whole process.  The affected goroutine panics at once — it sends no
completion result and recovers nothing per-command — and the process as a
whole halts without ever emitting the summary line. -/
theorem claim_C9 (w : World) (commands hosts : List String) (i : Nat)
    (hcmds : w.cmdsFile = some commands) (hhosts : w.hostsFile = some hosts)
    (hhelp : ¬(1 < w.osArgs.length ∧ w.osArgs.getD 1 "" = "help"))
    (hi : i < commands.length) (hne : hosts ≠ [])
    (h0 : (w.envOf i).createOk (ArtifactName.attempt i 0) = false) :
    (dispatch i (commands.getD i "") hosts (w.envOf i) (w.rndOf i)).panicked = true ∧
    (dispatch i (commands.getD i "") hosts (w.envOf i) (w.rndOf i)).sent = [] ∧
    (dispatch i (commands.getD i "") hosts (w.envOf i) (w.rndOf i)).fs = [] ∧
    (mainProg w).panicked = true ∧
    (mainProg w).summaryLine = none := by
  have hlen : (randPerm (w.rndOf i) hosts.length).length = hosts.length :=
    randPerm_length _ _
  have hpos : 0 < (randPerm (w.rndOf i) hosts.length).length := by
    rw [hlen]
    exact List.length_pos.mpr hne
  obtain ⟨x, rest, horder⟩ :=
    List.exists_cons_of_ne_nil (List.ne_nil_of_length_pos hpos)
  have hdisp := dispatchLoop_panic i (w.envOf i) hosts x rest {} h0
  have hpan : (dispatch i (commands.getD i "") hosts (w.envOf i) (w.rndOf i)).panicked = true := by
    rw [dispatch]
    rw [horder]
    exact hdisp.1
  have hsent : (dispatch i (commands.getD i "") hosts (w.envOf i) (w.rndOf i)).sent = [] := by
    rw [dispatch]
    rw [horder]
    exact hdisp.2.1
  have hfs : (dispatch i (commands.getD i "") hosts (w.envOf i) (w.rndOf i)).fs = [] := by
    rw [dispatch]
    rw [horder]
    exact hdisp.2.2.1
  have hany : (((List.range commands.length).map
      (fun k => dispatch k (commands.getD k "") hosts (w.envOf k) (w.rndOf k))).any
      (fun r => r.panicked)) = true := by
    rw [List.any_eq_true]
    exact ⟨dispatch i (commands.getD i "") hosts (w.envOf i) (w.rndOf i),
      List.mem_map.mpr ⟨i, List.mem_range.mpr hi, rfl⟩, hpan⟩
  refine ⟨hpan, hsent, hfs, ?_, ?_⟩ <;>
  · unfold mainProg
    rw [if_neg hhelp, hcmds, hhosts]
    simp only [hany]
    rfl

/-- Witness for C9 at concrete inputs: `worldBadCreate`, one command and one
host, `os.Create` always failing. -/
theorem claim_C9_witness :
    (dispatch 0 (["c1"].getD 0 "") ["h1"] (worldBadCreate.envOf 0)
      (worldBadCreate.rndOf 0)).panicked = true ∧
    (dispatch 0 (["c1"].getD 0 "") ["h1"] (worldBadCreate.envOf 0)
      (worldBadCreate.rndOf 0)).sent = [] ∧
    (dispatch 0 (["c1"].getD 0 "") ["h1"] (worldBadCreate.envOf 0)
      (worldBadCreate.rndOf 0)).fs = [] ∧
    (mainProg worldBadCreate).panicked = true ∧
    (mainProg worldBadCreate).summaryLine = none :=
  claim_C9 worldBadCreate ["c1"] ["h1"] 0 rfl rfl (by decide) (by decide)
    (by decide) rfl

/-- C10 is false as stated: in the invocation `disgo -cmds=x.txt help`, the
first positional command-line argument (`flag.Arg(0)`) is exactly `help`, yet
the program does not print usage — the code tests `os.Args[1]`, which here is
the flag token `-cmds=x.txt` — and proceeds to read both input files and
launch a dispatch goroutine. -/
theorem claim_C10_counterexample :
    firstPositional worldFlagHelp.osArgs = some "help" ∧
    (mainProg worldFlagHelp).usagePrinted = false ∧
    (mainProg worldFlagHelp).filesRead = ["x.txt", "hosts.txt"] ∧
    (mainProg worldFlagHelp).launched = 1 ∧
    (mainProg worldFlagHelp).summaryLine = some "FINISHED=1 FAILED=0 TOTAL=1" :=
  ⟨rfl, rfl, rfl, rfl, rfl⟩

/-- C10, amended: if the argument immediately following the program name
(`os.Args[1]`, not the first positional argument) is exactly `help`, the
process prints usage and terminates immediately — the commands file and
hosts file are never read, no dispatch goroutine is launched, no artifact is
created, and no summary line is emitted. -/
theorem claim_C10_amended (w : World)
    (h1 : 1 < w.osArgs.length) (h2 : w.osArgs.getD 1 "" = "help") :
    (mainProg w).usagePrinted = true ∧
    (mainProg w).filesRead = [] ∧
    (mainProg w).launched = 0 ∧
    (mainProg w).results = [] ∧
    (mainProg w).summaryLine = none ∧
    (mainProg w).panicked = false := by
  unfold mainProg
  rw [if_pos ⟨h1, h2⟩]
  exact ⟨rfl, rfl, rfl, rfl, rfl, rfl⟩

/-- Witness for the amended C10 at the concrete invocation `disgo help`. -/
theorem claim_C10_witness :
    (mainProg worldHelp).usagePrinted = true ∧
    (mainProg worldHelp).filesRead = [] ∧
    (mainProg worldHelp).launched = 0 ∧
    (mainProg worldHelp).results = [] ∧
    (mainProg worldHelp).summaryLine = none ∧
    (mainProg worldHelp).panicked = false :=
  claim_C10_amended worldHelp (by decide) rfl
